import Mathlib

/-!
Verification of the trace-record serialization and span-identity management
utilities of `mlflow/tracing/utils/__init__.py`:

* `encode_span_id` / `encode_trace_id` / `decode_id` — the identifier codec
  (`"0x"`-prefixed, zero-padded lowercase hex; decoding via Python `int(s, 16)`);
* `deduplicate_span_names_in_place` — span-name collision resolution;
* `TraceJSONEncoder.default` and `TraceJSONEncoder._is_safe_to_encode_str` —
  the ordered fallback chain serializing arbitrary captured values;
* `get_otel_attribute` — the tolerant attribute accessor;
* `maybe_get_request_id` — the evaluation-context accessor.

Python integers are modelled as `Nat`/`Int`, Python strings as `String`,
`None`-or-value as `Option`, raised exceptions as `Except`/`Option` failure.
-/

namespace Mlflow

/-! ### Identifier encoding

`encode_span_id(span_id) = f"0x{trace_api.format_span_id(span_id)}"` where
OpenTelemetry's `format_span_id(span_id)` is `format(span_id, "016x")`:
minimal lowercase hex digits of the integer, left-padded with `'0'` to
width 16 (`format_trace_id` pads to width 32).  The `@lru_cache(maxsize=1)`
decorators memoize a pure function and do not affect the value computed,
so they are not part of the model. -/

/-- Lowercase hexadecimal digit character for a value `0 ≤ n < 16`
(mirrors what Python's `format(_, "x")` emits per digit). -/
def hexDigitChar (n : Nat) : Char :=
  if n < 10 then Char.ofNat (48 + n) else Char.ofNat (87 + n)

/-- Fuel-driven little loop producing the minimal lowercase hex digit list of
`n` (most significant digit first), prepended to `acc`.  With fuel `> n` the
fuel never runs out. -/
def toHexAux : Nat → Nat → List Char → List Char
  | 0, _, acc => acc
  | fuel + 1, n, acc =>
    if n < 16 then hexDigitChar n :: acc
    else toHexAux fuel (n / 16) (hexDigitChar (n % 16) :: acc)

/-- Minimal lowercase hex digit list of `n`, e.g. `toHex 255 = ['f', 'f']`,
`toHex 0 = ['0']`.  Mirrors Python `format(n, "x")` for `n ≥ 0`. -/
def toHex (n : Nat) : List Char :=
  toHexAux (n + 1) n []

/-- OpenTelemetry `format_span_id`: `format(span_id, "016x")` — lowercase hex
zero-padded to 16 digits. -/
def format_span_id (span_id : Nat) : List Char :=
  List.replicate (16 - (toHex span_id).length) '0' ++ toHex span_id

/-- OpenTelemetry `format_trace_id`: `format(trace_id, "032x")` — lowercase hex
zero-padded to 32 digits. -/
def format_trace_id (trace_id : Nat) : List Char :=
  List.replicate (32 - (toHex trace_id).length) '0' ++ toHex trace_id

/-- `encode_span_id(span_id) = f"0x{trace_api.format_span_id(span_id)}"`. -/
def encode_span_id (span_id : Nat) : String :=
  String.mk ('0' :: 'x' :: format_span_id span_id)

/-- `encode_trace_id(trace_id) = f"0x{trace_api.format_trace_id(trace_id)}"`. -/
def encode_trace_id (trace_id : Nat) : String :=
  String.mk ('0' :: 'x' :: format_trace_id trace_id)

/-! ### Identifier decoding

`decode_id(s) = int(s, 16)`.  CPython's `int(s, 16)` accepts: optional
surrounding whitespace, an optional `+`/`-` sign, an optional `0x`/`0X`
prefix, then one or more hex digits (either case) where single underscores
may separate digits (and one underscore may directly follow the prefix).
Any other input raises `ValueError`.

Scope of the model: it covers the ASCII fragment of that grammar — the
stripped whitespace is the ASCII whitespace recognized by
`Char.isWhitespace`, and digits are ASCII `0-9a-fA-F`.  CPython additionally
accepts Unicode decimal digits (e.g. Arabic-Indic digits, where
`int("١٢", 16) = 18`) and Unicode whitespace, which the model rejects.  The
model is exact on ASCII inputs, in particular on every string the encoders
emit and on every concrete string appearing in the theorems below; no
theorem asserts that decoding fails outside the accepted grammar. -/

/-- Hexadecimal digit recognizer (both cases), as accepted by `int(_, 16)`. -/
def isHexDig (c : Char) : Bool :=
  c.isDigit || ('a' ≤ c && c ≤ 'f') || ('A' ≤ c && c ≤ 'F')

/-- Numeric value of a hex digit character. -/
def hexVal (c : Char) : Nat :=
  if c.isDigit then c.toNat - 48
  else if 'a' ≤ c && c ≤ 'f' then c.toNat - 87
  else c.toNat - 55

/-- Accumulate one more hex digit into a running value. -/
def hexAcc (x : Nat) (c : Char) : Nat :=
  x * 16 + hexVal c

/-- Lowercase hexadecimal digit recognizer (what the encoders emit). -/
def isLowerHexDigit (c : Char) : Bool :=
  c.isDigit || ('a' ≤ c && c ≤ 'f')

/-- Continue parsing hex digits after at least one digit has been consumed
into `acc`; a single `'_'` is allowed between digits, per CPython's
integer-literal tolerance in `int(s, 16)`. -/
def parseDigs : List Char → Nat → Option Nat
  | [], acc => some acc
  | c :: cs, acc =>
    if isHexDig c then parseDigs cs (acc * 16 + hexVal c)
    else if c = '_' then
      match cs with
      | c2 :: cs2 =>
        if isHexDig c2 then parseDigs cs2 (acc * 16 + hexVal c2) else none
      | [] => none
    else none

/-- Strip a leading `0x`/`0X`, if present. -/
def strip0x : List Char → List Char
  | '0' :: 'x' :: r => r
  | '0' :: 'X' :: r => r
  | cs => cs

/-- Strip the surrounding whitespace, as `int(s, 16)` does before parsing. -/
def stripWsAround (cs : List Char) : List Char :=
  ((cs.dropWhile Char.isWhitespace).reverse.dropWhile Char.isWhitespace).reverse

/-- Consume an optional leading sign, returning the sign factor and the rest. -/
def pySign : List Char → Int × List Char
  | '+' :: r => (1, r)
  | '-' :: r => (-1, r)
  | cs => (1, cs)

/-- Parse the digit part after the optional prefix: at least one hex digit,
where a leading underscore is allowed only directly after a `0x`/`0X` prefix
(`allowUnd`). -/
def pyHexDigits (allowUnd : Bool) : List Char → Option Nat
  | [] => none
  | c :: r2 =>
    if allowUnd && c = '_' then
      match r2 with
      | c2 :: r3 => if isHexDig c2 then parseDigs r3 (hexVal c2) else none
      | [] => none
    else if isHexDig c then parseDigs r2 (hexVal c) else none

/-- Parse the unsigned part: optional `0x`/`0X` prefix, then hex digits with
single-underscore separators (an underscore may also directly follow the
prefix). -/
def pyHexBody (cs : List Char) : Option Nat :=
  match cs with
  | '0' :: 'x' :: r => pyHexDigits true r
  | '0' :: 'X' :: r => pyHexDigits true r
  | r => pyHexDigits false r

/-- Model of `decode_id(span_or_trace_id) = int(span_or_trace_id, 16)`;
`none` models a raised `ValueError` (the spec's `ParseError`). -/
def decode_id (span_or_trace_id : String) : Option Int :=
  let signed := pySign (stripWsAround span_or_trace_id.data)
  (pyHexBody signed.2).map (fun n => signed.1 * n)

/-! ### Span-name deduplication

```
def deduplicate_span_names_in_place(spans):
    span_name_counter = Counter(span.name for span in spans)
    span_name_counter = \x7bname: 1 for name, count in span_name_counter.items() if count > 1\x7d
    for span in spans:
        if count := span_name_counter.get(span.name):
            span_name_counter[span.name] += 1
            span._span._name = f"\x7bspan.name\x7d_\x7bcount\x7d"
```

A span is represented by its mutable `name` — the only field the function
reads or writes; the in-place update of the span list is modelled as the
returned list of names (assuming, as the caller does, that the list holds
distinct span objects).  The counter values start at 1 and only grow, so the
truthiness test of the walrus assignment is a presence test. -/

/-- Loop of `deduplicate_span_names_in_place`: `ctr` is the mutable
`span_name_counter` dict (`none` = key absent). -/
def dedupLoop (ctr : String → Option Nat) : List String → List String
  | [] => []
  | n :: rest =>
    match ctr n with
    | some c =>
      (n ++ "_" ++ Nat.repr c) :: dedupLoop (fun m => if m = n then some (c + 1) else ctr m) rest
    | none => n :: dedupLoop ctr rest

/-- Model of `deduplicate_span_names_in_place`:  the initial counter maps each
name occurring more than once in the batch to 1, every other name to absent. -/
def deduplicate_span_names_in_place (spans : List String) : List String :=
  dedupLoop (fun name => if 2 ≤ spans.count name then some 1 else none) spans

/-- Closed form of the name the deduplicator assigns at position `i`: a name
occurring at least twice in the batch gains the suffix `_k` where `k` counts
this occurrence (from 1, in sequence order); any other name is untouched.
Proved equal to the model in `dedup_get?`. -/
def dedupName (spans : List String) (i : Nat) (hi : i < spans.length) : String :=
  if 2 ≤ spans.count (spans[i]) then
    spans[i] ++ "_" ++ Nat.repr ((spans.take i).count (spans[i]) + 1)
  else spans[i]

/-- Hypothesis under which deduplication produces pairwise-distinct names: no
name occurring exactly once in the batch coincides with a name `d ++ "_" ++ k`
that the deduplicator may generate for a duplicated name `d`. -/
def noCollision (spans : List String) : Prop :=
  ∀ i (hi : i < spans.length), ∀ j (hj : j < spans.length),
    spans.count (spans[i]) = 1 → 2 ≤ spans.count (spans[j]) →
    ∀ k, k < spans.count (spans[j]) →
      spans[i] ≠ spans[j] ++ "_" ++ Nat.repr (k + 1)

instance noCollision_decidable (spans : List String) : Decidable (noCollision spans) := by
  unfold noCollision
  infer_instance

/-- Decimal value of a digit-character list (used to invert `Nat.repr`). -/
def digitsVal (l : List Char) : Nat :=
  l.foldl (fun a c => a * 10 + (c.toNat - 48)) 0

/-! ### JSON values and `json.loads`

Model of the CPython `json.loads` used by `get_otel_attribute`: a strict
recursive-descent parser over the JSON grammar (objects, arrays, strings,
numbers, `true`/`false`/`null`, plus the `NaN`/`Infinity`/`-Infinity`
extensions `loads` accepts by default).  Number and string payloads are kept
as lexemes — none of the verified properties inspects them.  String escapes
are lexed (backslash + following character) without being interpreted. -/

/-- Python value resulting from `json.loads`; `null` doubles as Python
`None`. -/
inductive PyJson where
  | null
  | bool (b : Bool)
  | num (lexeme : String)
  | str (lexeme : String)
  | arr (items : List PyJson)
  | obj (fields : List (String × PyJson))

/-- JSON whitespace (the four characters `json.loads` skips). -/
def jsonWs (c : Char) : Bool :=
  c = ' ' || c = '\t' || c = '\n' || c = '\r'

/-- Drop leading JSON whitespace. -/
def skipWs (cs : List Char) : List Char :=
  cs.dropWhile jsonWs

/-- Lex a JSON string body after the opening quote; returns the raw content
and the remainder after the closing quote. -/
def lexStr : List Char → Option (List Char × List Char)
  | [] => none
  | '"' :: rest => some ([], rest)
  | '\\' :: c :: rest =>
    match lexStr rest with
    | some (s, r) => some ('\\' :: c :: s, r)
    | none => none
  | c :: rest =>
    match lexStr rest with
    | some (s, r) => some (c :: s, r)
    | none => none

/-- Split off a maximal run of decimal digits. -/
def lexDigits : List Char → List Char × List Char
  | [] => ([], [])
  | c :: rest =>
    if c.isDigit then
      let (d, r) := lexDigits rest
      (c :: d, r)
    else ([], c :: rest)

/-- Lex an optional fraction part `.digits`. -/
def lexFrac : List Char → Option (List Char × List Char)
  | '.' :: r =>
    match lexDigits r with
    | ([], _) => none
    | (d, r2) => some ('.' :: d, r2)
  | cs => some ([], cs)

/-- Lex an optional exponent part `[eE][+-]?digits`. -/
def lexExp : List Char → Option (List Char × List Char)
  | c :: r =>
    if c = 'e' || c = 'E' then
      let signed : List Char × List Char :=
        match r with
        | s :: r2 => if s = '+' || s = '-' then ([s], r2) else ([], r)
        | [] => ([], [])
      match lexDigits signed.2 with
      | ([], _) => none
      | (d, r2) => some (c :: signed.1 ++ d, r2)
    else some ([], c :: r)
  | [] => some ([], [])

/-- Lex a JSON number (strict grammar: optional `-`, integer part without
leading zeros, optional fraction, optional exponent). -/
def lexNumber (cs : List Char) : Option (List Char × List Char) :=
  let signed : List Char × List Char :=
    match cs with
    | '-' :: r => (['-'], r)
    | _ => ([], cs)
  let intPart : Option (List Char × List Char) :=
    match signed.2 with
    | '0' :: r => some (signed.1 ++ ['0'], r)
    | c :: r =>
      if c.isDigit then
        let (d, r2) := lexDigits r
        some (signed.1 ++ c :: d, r2)
      else none
    | [] => none
  match intPart with
  | none => none
  | some (ip, r) =>
    match lexFrac r with
    | none => none
    | some (fp, r2) =>
      match lexExp r2 with
      | none => none
      | some (ep, r3) => some (ip ++ fp ++ ep, r3)

mutual

/-- Parse one JSON value (after skipping leading whitespace), returning the
value and the unconsumed remainder. -/
def parseVal : Nat → List Char → Option (PyJson × List Char)
  | 0, _ => none
  | fuel + 1, cs =>
    match skipWs cs with
    | 'n' :: 'u' :: 'l' :: 'l' :: r => some (.null, r)
    | 't' :: 'r' :: 'u' :: 'e' :: r => some (.bool true, r)
    | 'f' :: 'a' :: 'l' :: 's' :: 'e' :: r => some (.bool false, r)
    | 'N' :: 'a' :: 'N' :: r => some (.num "NaN", r)
    | 'I' :: 'n' :: 'f' :: 'i' :: 'n' :: 'i' :: 't' :: 'y' :: r =>
      some (.num "Infinity", r)
    | '-' :: 'I' :: 'n' :: 'f' :: 'i' :: 'n' :: 'i' :: 't' :: 'y' :: r =>
      some (.num "-Infinity", r)
    | '"' :: r =>
      match lexStr r with
      | some (s, r2) => some (.str (String.mk s), r2)
      | none => none
    | '\x7b' :: r =>
      match skipWs r with
      | '\x7d' :: r2 => some (.obj [], r2)
      | _ =>
        match parseMembers fuel (skipWs r) with
        | some (fs, r2) => some (.obj fs, r2)
        | none => none
    | '[' :: r =>
      match skipWs r with
      | ']' :: r2 => some (.arr [], r2)
      | _ =>
        match parseItems fuel (skipWs r) with
        | some (xs, r2) => some (.arr xs, r2)
        | none => none
    | other =>
      match lexNumber other with
      | some (lx, r) => some (.num (String.mk lx), r)
      | none => none

/-- Parse the nonempty member list of a JSON object, up to and including the
closing brace. -/
def parseMembers : Nat → List Char → Option (List (String × PyJson) × List Char)
  | 0, _ => none
  | fuel + 1, cs =>
    match skipWs cs with
    | '"' :: r =>
      match lexStr r with
      | some (k, r2) =>
        match skipWs r2 with
        | ':' :: r3 =>
          match parseVal fuel r3 with
          | some (v, r4) =>
            match skipWs r4 with
            | ',' :: r5 =>
              match parseMembers fuel r5 with
              | some (fs, r6) => some ((String.mk k, v) :: fs, r6)
              | none => none
            | '\x7d' :: r5 => some ([(String.mk k, v)], r5)
            | _ => none
          | none => none
        | _ => none
      | none => none
    | _ => none

/-- Parse the nonempty item list of a JSON array, up to and including the
closing bracket. -/
def parseItems : Nat → List Char → Option (List PyJson × List Char)
  | 0, _ => none
  | fuel + 1, cs =>
    match parseVal fuel cs with
    | some (v, r) =>
      match skipWs r with
      | ',' :: r2 =>
        match parseItems fuel r2 with
        | some (xs, r3) => some (v :: xs, r3)
        | none => none
      | ']' :: r2 => some ([v], r2)
      | _ => none
    | none => none

end

/-- Model of `json.loads(s)`: parse one value, require only whitespace after
it; `.error ()` models a raised exception.  The fuel `2 * length + 2`
dominates the recursion depth, which consumes at most two units of fuel per
input character. -/
def json_loads (s : String) : Except Unit PyJson :=
  match parseVal (2 * s.data.length + 2) s.data with
  | some (v, rest) => if (skipWs rest).isEmpty then .ok v else .error ()
  | none => .error ()

/-! ### `get_otel_attribute`

```
try:
    return json.loads(span.attributes.get(key))
except Exception:
    _logger.debug(...)
```

The span's attribute map is modelled as `String → Option String`.  A missing
key makes `attributes.get(key)` return `None` and `json.loads(None)` raise a
`TypeError`; the catch-all `except` turns every failure into the implicit
return of `None`.  At the Python level the `None` returned on failure is the
same value as a decoded JSON `null`, so the result type is `PyJson` with
`PyJson.null` playing Python's `None`. -/

/-- Model of `get_otel_attribute(span, key)`. -/
def get_otel_attribute (attributes : String → Option String) (key : String) : PyJson :=
  match attributes key with
  | none => .null
  | some s =>
    match json_loads s with
    | .ok v => v
    | .error _ => .null

/-! ### `TraceJSONEncoder`

The ordered fallback chain of `TraceJSONEncoder.default`, with the runtime
library probes modelled as configuration flags and the Python object's
classification and method-call outcomes modelled as fields (`none` models a
method that raises):

1. langchain `< 0.3.0` present and `obj` a `langchain_core.pydantic_v1.BaseModel`
   → `obj.dict()`;
2. pydantic present and `obj` a `pydantic.BaseModel` → `obj.model_dump()` for
   pydantic `≥ 2.0` else `obj.dict()`;
3. `is_dataclass(obj)` → `asdict(obj)`, a raised `TypeError` falling through;
4. safety gate `_is_safe_to_encode_str`: llama-index present and `obj` one of
   its three streaming-response types → `return type(obj)` (the type object,
   never `str(obj)`);
5. `super().default(obj)` — CPython's `json.JSONEncoder.default`
   unconditionally raises `TypeError` — caught, and `str(obj)` returned.

Only `ImportError` (modelled by the configuration flags) and the `TypeError`
of rules 3 and 5 are caught: a raising `dict()`/`model_dump()`/`str()`
propagates out of `default`. -/

/-- Which optional integrations the runtime has, and their versions. -/
structure EncCfg where
  /-- `import langchain` succeeds, its version is `< 0.3.0`, and
  `langchain_core.pydantic_v1` is importable. -/
  langchain_legacy : Bool
  /-- `import pydantic` succeeds. -/
  pydantic_installed : Bool
  /-- Installed pydantic version is `≥ 2.0`. -/
  pydantic_v2 : Bool
  /-- The three llama-index streaming-response types are importable. -/
  llama_index_installed : Bool

/-- Serialized value produced by one pass of `TraceJSONEncoder.default`. -/
inductive PyVal where
  /-- A `dict` of exported fields (payload abstracted). -/
  | dict (fields : List (String × String))
  /-- The result of `str(obj)`. -/
  | str (s : String)
  /-- The type object `type(obj)` (identified by its name). -/
  | typeObj (name : String)

/-- Outcome of `dataclasses.asdict(obj)`.  The source catches only
`TypeError` around this call; any other exception — e.g. the
`RecursionError` raised for a cyclic (self-referential) dataclass —
propagates out of `default`, so the model keeps the two failure modes
apart. -/
inductive AsdictResult where
  /-- `asdict` returned a field dict. -/
  | ok (fields : List (String × String))
  /-- `asdict` raised `TypeError` — caught, the chain falls through. -/
  | typeError
  /-- `asdict` raised some other exception — it propagates. -/
  | raised (msg : String)

/-- The classification of a Python object by the chain's `isinstance`/
`is_dataclass` tests, together with the outcomes of the conversions the chain
may invoke on it (`none` = that call raises). -/
structure PyObj where
  /-- `isinstance(obj, langchain_core.pydantic_v1.BaseModel)`. -/
  is_langchain_base_model : Bool
  /-- `isinstance(obj, pydantic.BaseModel)`. -/
  is_pydantic_base_model : Bool
  /-- `dataclasses.is_dataclass(obj)`. -/
  is_dataclass : Bool
  /-- Instance of `AsyncStreamingResponse`, `StreamingResponse`, or
  `StreamingAgentChatResponse` from llama-index. -/
  is_llama_streaming : Bool
  /-- Result of `obj.dict()`. -/
  dict_export : Option (List (String × String))
  /-- Result of `obj.model_dump()`. -/
  model_dump : Option (List (String × String))
  /-- Outcome of `dataclasses.asdict(obj)`. -/
  asdict_export : AsdictResult
  /-- Result of `str(obj)`. -/
  str_form : Option String
  /-- Name of `type(obj)`. -/
  type_name : String

/-- Model of `TraceJSONEncoder._is_safe_to_encode_str(obj)`: `False` exactly
when the llama-index streaming types are importable and `obj` is an instance
of one of them. -/
def TraceJSONEncoder.is_safe_to_encode_str (cfg : EncCfg) (obj : PyObj) : Bool :=
  !(cfg.llama_index_installed && obj.is_llama_streaming)

/-- Rules 4–5 of the chain, reached when rules 1–3 leave the value
unclassified: the `_is_safe_to_encode_str` gate returning `type(obj)` for
unsafe values, then `super().default(obj)` — CPython's
`json.JSONEncoder.default` unconditionally raises `TypeError` — caught, and
`str(obj)` returned. -/
def TraceJSONEncoder.strFallback (cfg : EncCfg) (obj : PyObj) : Except String PyVal :=
  if !(TraceJSONEncoder.is_safe_to_encode_str cfg obj) then
    .ok (.typeObj obj.type_name)
  else
    match obj.str_form with
    | some s => .ok (.str s)
    | none => .error "str(obj) raised"

/-- Model of `TraceJSONEncoder.default(obj)`; `.error` models an exception
propagating out of the encoder.  Around `asdict` only `TypeError` is caught
(`AsdictResult.typeError` falls through); any other exception propagates. -/
def TraceJSONEncoder.default (cfg : EncCfg) (obj : PyObj) : Except String PyVal :=
  if cfg.langchain_legacy && obj.is_langchain_base_model then
    match obj.dict_export with
    | some d => .ok (.dict d)
    | none => .error "obj.dict() raised"
  else if cfg.pydantic_installed && obj.is_pydantic_base_model then
    if cfg.pydantic_v2 then
      match obj.model_dump with
      | some d => .ok (.dict d)
      | none => .error "obj.model_dump() raised"
    else
      match obj.dict_export with
      | some d => .ok (.dict d)
      | none => .error "obj.dict() raised"
  else if obj.is_dataclass then
    match obj.asdict_export with
    | .ok d => .ok (.dict d)
    | .typeError => TraceJSONEncoder.strFallback cfg obj
    | .raised e => .error e
  else TraceJSONEncoder.strFallback cfg obj

/-- Did a modelled Python computation finish without raising? -/
def exceptOk {ε α : Type} : Except ε α → Bool
  | .ok _ => true
  | .error _ => false

/-! ### Prediction-context accessors

`maybe_get_request_id(is_evaluate)` consults the ambient prediction context
(`None` when `mlflow.pyfunc.context` is not importable or no context is set).
Python truthiness of `context.request_id` treats both `None` and the empty
string as missing.  `.error` models the raised `MlflowTracingException`
with `error_code=BAD_REQUEST` (the spec's `InvalidArgument` class). -/

/-- The ambient prediction context (the fields the accessor reads). -/
structure PredictionContext where
  /-- `context.request_id` (`none` = Python `None`). -/
  request_id : Option String
  /-- `context.is_evaluate`. -/
  is_evaluate : Bool

/-- Python truthiness test `not context.request_id`. -/
def requestIdFalsy : Option String → Bool
  | none => true
  | some s => s.isEmpty

/-- Model of `maybe_get_request_id(is_evaluate)`, with the ambient context
passed explicitly. -/
def maybe_get_request_id (context : Option PredictionContext) (is_evaluate : Bool) :
    Except String (Option String) :=
  match context with
  | none => .ok none
  | some c =>
    if is_evaluate && !c.is_evaluate then .ok none
    else if requestIdFalsy c.request_id && is_evaluate then
      .error "Missing request_id for context. request_id cannot be None when is_evaluate=True."
    else .ok c.request_id

/-! ### Statements taken verbatim from the specification's words

These definitions transcribe the spec's description (not the source) and are
compared with the source-derived definitions in the refinement theorems. -/

/-- Claim C8's notion of a valid hexadecimal string: an optional `0x` (or
`0X`) prefix followed by at least one hexadecimal digit, nothing else. -/
def isValidHexString (s : String) : Bool :=
  !(strip0x s.data).isEmpty && (strip0x s.data).all isHexDig

/-- Integer value of a valid hexadecimal string (most significant digit
first). -/
def hexStrVal (s : String) : Nat :=
  (strip0x s.data).foldl hexAcc 0

/-! ## Helper lemmas about the hexadecimal codec -/

theorem hexVal_hexDigitChar : ∀ n, n < 16 → hexVal (hexDigitChar n) = n := by decide

theorem isLowerHexDigit_hexDigitChar : ∀ n, n < 16 → isLowerHexDigit (hexDigitChar n) = true := by
  decide

theorem isHexDig_of_lower {c : Char} (h : isLowerHexDigit c = true) : isHexDig c = true := by
  simp only [isLowerHexDigit, Bool.or_eq_true] at h
  simp only [isHexDig, Bool.or_eq_true]
  tauto

theorem not_ws_of_isHexDig {c : Char} (h : isHexDig c = true) : c.isWhitespace = false := by
  by_contra hw
  rw [Bool.not_eq_false] at hw
  simp only [Char.isWhitespace, Bool.or_eq_true, decide_eq_true_eq] at hw
  have hcs : c = ' ' ∨ c = '\t' ∨ c = '\r' ∨ c = '\n' := by tauto
  rcases hcs with h' | h' | h' | h' <;> rw [h'] at h <;> exact absurd h (by decide)

theorem dropWhile_eq_self_of_all {p : Char → Bool} {l : List Char}
    (h : ∀ c ∈ l, p c = false) : l.dropWhile p = l := by
  cases l with
  | nil => rfl
  | cons c t => rw [List.dropWhile_cons, h c (by simp)]; simp

theorem stripWsAround_eq_self {l : List Char} (h : ∀ c ∈ l, c.isWhitespace = false) :
    stripWsAround l = l := by
  unfold stripWsAround
  rw [dropWhile_eq_self_of_all h,
    dropWhile_eq_self_of_all (fun c hc => h c (List.mem_reverse.mp hc)),
    List.reverse_reverse]

theorem toHexAux_spec (fuel : Nat) : ∀ n acc, n < fuel →
    ∃ ds, toHexAux fuel n acc = ds ++ acc ∧ ds ≠ [] ∧
      (∀ c ∈ ds, isLowerHexDigit c = true) ∧
      (∀ a, ds.foldl hexAcc a = a * 16 ^ ds.length + n) ∧
      (∀ k, 1 ≤ k → n < 16 ^ k → ds.length ≤ k) := by
  induction fuel with
  | zero => intro n acc h; omega
  | succ fuel ih =>
    intro n acc h
    by_cases hn : n < 16
    · refine ⟨[hexDigitChar n], ?_, by simp, ?_, ?_, ?_⟩
      · unfold toHexAux; rw [if_pos hn]; rfl
      · intro c hc
        rw [List.mem_singleton] at hc
        subst hc
        exact isLowerHexDigit_hexDigitChar n hn
      · intro a
        simp only [List.foldl_cons, List.foldl_nil, List.length_singleton, pow_one, hexAcc]
        rw [hexVal_hexDigitChar n hn]
      · intro k hk _
        simpa using hk
    · have h16 : 16 ≤ n := Nat.le_of_not_lt hn
      have hdiv : n / 16 < n := Nat.div_lt_self (by omega) (by omega)
      obtain ⟨ds', heq, hne, hhex, hval, hlen⟩ :=
        ih (n / 16) (hexDigitChar (n % 16) :: acc) (by omega)
      have hmod : n % 16 < 16 := Nat.mod_lt n (by omega)
      refine ⟨ds' ++ [hexDigitChar (n % 16)], ?_, by simp, ?_, ?_, ?_⟩
      · unfold toHexAux
        rw [if_neg hn, heq]
        simp
      · intro c hc
        rcases List.mem_append.mp hc with h' | h'
        · exact hhex c h'
        · rw [List.mem_singleton] at h'
          subst h'
          exact isLowerHexDigit_hexDigitChar _ hmod
      · intro a
        rw [List.foldl_append, hval a]
        simp only [List.foldl_cons, List.foldl_nil, List.length_append,
          List.length_singleton, hexAcc]
        rw [hexVal_hexDigitChar _ hmod]
        have : (a * 16 ^ ds'.length + n / 16) * 16 + n % 16 =
            a * 16 ^ (ds'.length + 1) + (16 * (n / 16) + n % 16) := by ring
        rw [this, Nat.div_add_mod]
      · intro k hk1 hk2
        obtain ⟨j, rfl⟩ : ∃ j, k = j + 1 := ⟨k - 1, by omega⟩
        rcases Nat.eq_zero_or_pos j with hj | hj
        · subst hj
          rw [pow_one] at hk2
          omega
        · have hj2 : n / 16 < 16 ^ j := by
            rw [Nat.div_lt_iff_lt_mul (by omega : (0:Nat) < 16), ← pow_succ]
            exact hk2
          have := hlen j hj hj2
          simp only [List.length_append, List.length_singleton]
          omega

theorem toHex_spec (n : Nat) :
    toHex n ≠ [] ∧ (∀ c ∈ toHex n, isLowerHexDigit c = true) ∧
    (∀ a, (toHex n).foldl hexAcc a = a * 16 ^ (toHex n).length + n) ∧
    (∀ k, 1 ≤ k → n < 16 ^ k → (toHex n).length ≤ k) := by
  obtain ⟨ds, heq, hne, hhex, hval, hlen⟩ := toHexAux_spec (n + 1) n [] (Nat.lt_succ_self n)
  have hds : toHex n = ds := by
    rw [toHex, heq, List.append_nil]
  rw [hds]
  exact ⟨hne, hhex, hval, hlen⟩

theorem foldl_hexAcc_replicate_zero : ∀ k, (List.replicate k '0').foldl hexAcc 0 = 0 := by
  intro k
  induction k with
  | zero => rfl
  | succ k ih =>
    rw [List.replicate_succ, List.foldl_cons]
    have h0 : hexAcc 0 '0' = 0 := by decide
    rw [h0, ih]

theorem padHex_members (w id : Nat) :
    ∀ c ∈ List.replicate (w - (toHex id).length) '0' ++ toHex id, isLowerHexDigit c = true := by
  intro c hc
  rcases List.mem_append.mp hc with h' | h'
  · rw [List.eq_of_mem_replicate h']
    decide
  · exact (toHex_spec id).2.1 c h'

theorem padHex_val (w id : Nat) :
    (List.replicate (w - (toHex id).length) '0' ++ toHex id).foldl hexAcc 0 = id := by
  rw [List.foldl_append, foldl_hexAcc_replicate_zero]
  have := (toHex_spec id).2.2.1 0
  rw [this]
  simp

theorem padHex_length (w id : Nat) (hw : 1 ≤ w) (h : id < 16 ^ w) :
    (List.replicate (w - (toHex id).length) '0' ++ toHex id).length = w := by
  have hL : (toHex id).length ≤ w := (toHex_spec id).2.2.2 w hw h
  simp only [List.length_append, List.length_replicate]
  omega

theorem padHex_ne_nil (w id : Nat) :
    List.replicate (w - (toHex id).length) '0' ++ toHex id ≠ [] := by
  intro h
  rcases List.append_eq_nil.mp h with ⟨_, h2⟩
  exact (toHex_spec id).1 h2

theorem parseDigs_all_hex :
    ∀ cs : List Char, (∀ c ∈ cs, isHexDig c = true) →
      ∀ acc, parseDigs cs acc = some (cs.foldl hexAcc acc) := by
  intro cs
  induction cs with
  | nil => intro _ _; rfl
  | cons c rest ih =>
    intro h acc
    have hc : isHexDig c = true := h c (by simp)
    unfold parseDigs
    rw [if_pos hc, List.foldl_cons]
    exact ih (fun x hx => h x (by simp [hx])) (hexAcc acc c)

theorem pySign_default {l : List Char} (h1 : l.head? ≠ some '+') (h2 : l.head? ≠ some '-') :
    pySign l = (1, l) := by
  unfold pySign
  split
  · simp at h1
  · simp at h2
  · rfl

theorem isHexDig_ne_underscore {c : Char} (h : isHexDig c = true) : c ≠ '_' := by
  intro hc
  rw [hc] at h
  exact absurd h (by decide)

theorem strip0x_shape (l : List Char) :
    l = '0' :: 'x' :: strip0x l ∨ l = '0' :: 'X' :: strip0x l ∨ strip0x l = l := by
  unfold strip0x
  split
  · left; rfl
  · right; left; rfl
  · right; right; rfl

theorem pyHexDigits_cons_of_hex (b : Bool) {c : Char} {r2 : List Char}
    (hc : isHexDig c = true) (hall : ∀ x ∈ r2, isHexDig x = true) :
    pyHexDigits b (c :: r2) = some ((c :: r2).foldl hexAcc 0) := by
  have hcu : c ≠ '_' := isHexDig_ne_underscore hc
  simp only [pyHexDigits]
  rw [if_neg (by simp [hcu]), if_pos hc, parseDigs_all_hex r2 hall (hexVal c), List.foldl_cons]
  have : hexAcc 0 c = hexVal c := by simp [hexAcc]
  rw [this]

theorem pyHexBody_of_hex {cs : List Char} {c : Char} {r2 : List Char}
    (hs : strip0x cs = c :: r2) (hc : isHexDig c = true)
    (hall : ∀ x ∈ r2, isHexDig x = true) :
    pyHexBody cs = some ((c :: r2).foldl hexAcc 0) := by
  rcases strip0x_shape cs with hsh | hsh | hsh
  · rw [hsh, hs]
    show pyHexDigits true (c :: r2) = _
    exact pyHexDigits_cons_of_hex true hc hall
  · rw [hsh, hs]
    show pyHexDigits true (c :: r2) = _
    exact pyHexDigits_cons_of_hex true hc hall
  · rw [hsh] at hs
    rw [hs]
    unfold pyHexBody
    split
    · rename_i tail heq
      rw [hs, heq] at hsh
      have h2 : strip0x ('0' :: 'x' :: tail) = tail := rfl
      rw [h2] at hsh
      have := congrArg List.length hsh
      simp only [List.length_cons] at this
      omega
    · rename_i tail heq
      rw [hs, heq] at hsh
      have h2 : strip0x ('0' :: 'X' :: tail) = tail := rfl
      rw [h2] at hsh
      have := congrArg List.length hsh
      simp only [List.length_cons] at this
      omega
    · exact pyHexDigits_cons_of_hex false hc hall

theorem mem_not_ws_of_valid {s : String} (h : isValidHexString s = true) :
    ∀ c ∈ s.data, c.isWhitespace = false := by
  have hall : ∀ c ∈ strip0x s.data, c.isWhitespace = false := by
    intro c hc
    have : (strip0x s.data).all isHexDig = true := by
      simp only [isValidHexString, Bool.and_eq_true] at h
      exact h.2
    exact not_ws_of_isHexDig (List.all_eq_true.mp this c hc)
  intro c hc
  rcases strip0x_shape s.data with hsh | hsh | hsh
  · rw [hsh] at hc
    rcases hc with _ | ⟨_, hc⟩
    · decide
    · rcases hc with _ | ⟨_, hc⟩
      · decide
      · exact hall c hc
  · rw [hsh] at hc
    rcases hc with _ | ⟨_, hc⟩
    · decide
    · rcases hc with _ | ⟨_, hc⟩
      · decide
      · exact hall c hc
  · exact hall c (by rw [hsh]; exact hc)

theorem decode_id_of_valid {s : String} (h : isValidHexString s = true) :
    decode_id s = some ((hexStrVal s : Nat) : Int) := by
  obtain ⟨hne, hall⟩ : (strip0x s.data).isEmpty = false ∧ (strip0x s.data).all isHexDig = true := by
    simp only [isValidHexString, Bool.and_eq_true, Bool.not_eq_true'] at h
    exact h
  obtain ⟨c, r2, hs⟩ : ∃ c r2, strip0x s.data = c :: r2 := by
    cases hcs : strip0x s.data with
    | nil => rw [hcs] at hne; simp at hne
    | cons a t => exact ⟨a, t, rfl⟩
  have hallm : ∀ x ∈ strip0x s.data, isHexDig x = true := List.all_eq_true.mp hall
  have hc : isHexDig c = true := hallm c (by rw [hs]; simp)
  have hr2 : ∀ x ∈ r2, isHexDig x = true := fun x hx => hallm x (by rw [hs]; simp [hx])
  have hws : stripWsAround s.data = s.data := stripWsAround_eq_self (mem_not_ws_of_valid h)
  have hhead : s.data.head? ≠ some '+' ∧ s.data.head? ≠ some '-' := by
    rcases strip0x_shape s.data with hsh | hsh | hsh
    · rw [hsh]; simp
    · rw [hsh]; simp
    · rw [← hsh, hs]
      constructor <;> intro hx <;> simp only [List.head?_cons, Option.some_inj] at hx <;>
        subst hx <;> exact absurd hc (by decide)
  have hsign : pySign s.data = (1, s.data) := pySign_default hhead.1 hhead.2
  have hd : decode_id s = (pyHexBody (pySign (stripWsAround s.data)).2).map
      (fun n => (pySign (stripWsAround s.data)).1 * n) := rfl
  rw [hd, hws, hsign]
  show (pyHexBody s.data).map (fun n => (1 : Int) * n) = _
  rw [pyHexBody_of_hex hs hc hr2, hexStrVal, hs]
  simp

theorem encode_span_id_data (id : Nat) :
    (encode_span_id id).data = '0' :: 'x' :: format_span_id id := rfl

theorem encode_trace_id_data (id : Nat) :
    (encode_trace_id id).data = '0' :: 'x' :: format_trace_id id := rfl

theorem encode_span_id_valid (id : Nat) : isValidHexString (encode_span_id id) = true := by
  have hstrip : strip0x (encode_span_id id).data = format_span_id id := rfl
  simp only [isValidHexString, hstrip, Bool.and_eq_true, Bool.not_eq_true']
  constructor
  · rw [List.isEmpty_eq_false]
    exact padHex_ne_nil 16 id
  · rw [List.all_eq_true]
    exact fun c hc => isHexDig_of_lower (padHex_members 16 id c hc)

theorem encode_trace_id_valid (id : Nat) : isValidHexString (encode_trace_id id) = true := by
  have hstrip : strip0x (encode_trace_id id).data = format_trace_id id := rfl
  simp only [isValidHexString, hstrip, Bool.and_eq_true, Bool.not_eq_true']
  constructor
  · rw [List.isEmpty_eq_false]
    exact padHex_ne_nil 32 id
  · rw [List.all_eq_true]
    exact fun c hc => isHexDig_of_lower (padHex_members 32 id c hc)

theorem encode_span_id_hexStrVal (id : Nat) : hexStrVal (encode_span_id id) = id := by
  have hstrip : strip0x (encode_span_id id).data = format_span_id id := rfl
  rw [hexStrVal, hstrip]
  exact padHex_val 16 id

theorem encode_trace_id_hexStrVal (id : Nat) : hexStrVal (encode_trace_id id) = id := by
  have hstrip : strip0x (encode_trace_id id).data = format_trace_id id := rfl
  rw [hexStrVal, hstrip]
  exact padHex_val 32 id

/-! ## Claim C2: round trip of the identifier codec -/

/-- C2: for every non-negative 64-bit integer `x`,
`decode_id (encode_span_id x) = x`, and for every non-negative 128-bit
integer `x`, `decode_id (encode_trace_id x) = x`. -/
theorem C2_decode_encode_roundtrip :
    (∀ x : Nat, x < 2 ^ 64 → decode_id (encode_span_id x) = some (x : Int)) ∧
    (∀ x : Nat, x < 2 ^ 128 → decode_id (encode_trace_id x) = some (x : Int)) := by
  constructor
  · intro x _
    rw [decode_id_of_valid (encode_span_id_valid x), encode_span_id_hexStrVal x]
  · intro x _
    rw [decode_id_of_valid (encode_trace_id_valid x), encode_trace_id_hexStrVal x]

/-- Witness for C2 at the concrete ids 255 (span) and 255 (trace). -/
theorem C2_decode_encode_roundtrip_witness :
    decode_id (encode_span_id 255) = some (255 : Int) ∧
    decode_id (encode_trace_id 255) = some (255 : Int) :=
  ⟨C2_decode_encode_roundtrip.1 255 (by norm_num),
   C2_decode_encode_roundtrip.2 255 (by norm_num)⟩

/-! ## Claim C3: wire format of encoded identifiers -/

/-- C3: for every non-negative 64-bit id, `encode_span_id id` is `"0x"`
followed by exactly 16 lowercase hex digits (zero-padded); for every
non-negative 128-bit id, `encode_trace_id id` is `"0x"` followed by exactly
32 lowercase hex digits. -/
theorem C3_encode_hex_format :
    (∀ id : Nat, id < 2 ^ 64 →
      (encode_span_id id).data = '0' :: 'x' :: format_span_id id ∧
      (format_span_id id).length = 16 ∧
      ∀ c ∈ format_span_id id, isLowerHexDigit c = true) ∧
    (∀ id : Nat, id < 2 ^ 128 →
      (encode_trace_id id).data = '0' :: 'x' :: format_trace_id id ∧
      (format_trace_id id).length = 32 ∧
      ∀ c ∈ format_trace_id id, isLowerHexDigit c = true) := by
  constructor
  · intro id hid
    refine ⟨encode_span_id_data id, ?_, padHex_members 16 id⟩
    have h16 : id < 16 ^ 16 := by
      have : (16 : Nat) ^ 16 = 2 ^ 64 := by norm_num
      omega
    exact padHex_length 16 id (by norm_num) h16
  · intro id hid
    refine ⟨encode_trace_id_data id, ?_, padHex_members 32 id⟩
    have h32 : id < 16 ^ 32 := by
      have : (16 : Nat) ^ 32 = 2 ^ 128 := by norm_num
      omega
    exact padHex_length 32 id (by norm_num) h32

/-- Witness for C3 at the concrete ids 255 (span) and 255 (trace). -/
theorem C3_encode_hex_format_witness :
    ((encode_span_id 255).data = '0' :: 'x' :: format_span_id 255 ∧
      (format_span_id 255).length = 16 ∧
      ∀ c ∈ format_span_id 255, isLowerHexDigit c = true) ∧
    ((encode_trace_id 255).data = '0' :: 'x' :: format_trace_id 255 ∧
      (format_trace_id 255).length = 32 ∧
      ∀ c ∈ format_trace_id 255, isLowerHexDigit c = true) :=
  ⟨C3_encode_hex_format.1 255 (by norm_num), C3_encode_hex_format.2 255 (by norm_num)⟩

/-! ## Helper lemmas about `Nat.repr` (decimal rendering used by the
deduplicator's f-string) -/

theorem digitChar_val : ∀ m, m < 10 → (Nat.digitChar m).toNat - 48 = m := by decide

theorem digitChar_isDigit : ∀ m, m < 10 → (Nat.digitChar m).isDigit = true := by decide

theorem toDigitsCore_spec (fuel : Nat) : ∀ n acc, n < fuel →
    ∃ ds, Nat.toDigitsCore 10 fuel n acc = ds ++ acc ∧ ds ≠ [] ∧
      (∀ c ∈ ds, c.isDigit = true) ∧
      (∀ a, ds.foldl (fun a c => a * 10 + (c.toNat - 48)) a = a * 10 ^ ds.length + n) := by
  induction fuel with
  | zero => intro n acc h; omega
  | succ fuel ih =>
    intro n acc h
    by_cases hn : n / 10 = 0
    · have hn10 : n < 10 := by omega
      refine ⟨[Nat.digitChar (n % 10)], ?_, by simp, ?_, ?_⟩
      · simp only [Nat.toDigitsCore]
        rw [if_pos hn]
        rfl
      · intro c hc
        rw [List.mem_singleton] at hc
        subst hc
        exact digitChar_isDigit _ (Nat.mod_lt n (by omega) |>.trans_le (by omega))
      · intro a
        simp only [List.foldl_cons, List.foldl_nil, List.length_singleton, pow_one]
        rw [digitChar_val (n % 10) (Nat.mod_lt n (by omega) |>.trans_le (by omega)),
          Nat.mod_eq_of_lt hn10]
    · have hrec : n / 10 < fuel := by omega
      obtain ⟨ds', heq, hne, hdig, hval⟩ := ih (n / 10) (Nat.digitChar (n % 10) :: acc) hrec
      refine ⟨ds' ++ [Nat.digitChar (n % 10)], ?_, by simp, ?_, ?_⟩
      · simp only [Nat.toDigitsCore]
        rw [if_neg hn, heq]
        simp
      · intro c hc
        rcases List.mem_append.mp hc with h' | h'
        · exact hdig c h'
        · rw [List.mem_singleton] at h'
          subst h'
          exact digitChar_isDigit _ (Nat.mod_lt n (by omega))
      · intro a
        rw [List.foldl_append, hval a]
        simp only [List.foldl_cons, List.foldl_nil, List.length_append, List.length_singleton]
        rw [digitChar_val (n % 10) (Nat.mod_lt n (by omega))]
        have harith : (a * 10 ^ ds'.length + n / 10) * 10 + n % 10 =
            a * 10 ^ (ds'.length + 1) + (10 * (n / 10) + n % 10) := by ring
        rw [harith, Nat.div_add_mod]

theorem repr_data (n : Nat) : (Nat.repr n).data = Nat.toDigits 10 n := rfl

theorem toDigits_spec (n : Nat) :
    Nat.toDigits 10 n ≠ [] ∧ (∀ c ∈ Nat.toDigits 10 n, c.isDigit = true) ∧
    digitsVal (Nat.toDigits 10 n) = n := by
  obtain ⟨ds, heq, hne, hdig, hval⟩ := toDigitsCore_spec (n + 1) n [] (Nat.lt_succ_self n)
  have hds : Nat.toDigits 10 n = ds := by
    rw [Nat.toDigits, heq, List.append_nil]
  rw [hds]
  refine ⟨hne, hdig, ?_⟩
  rw [digitsVal, hval 0]
  simp

theorem repr_inj {m n : Nat} (h : Nat.repr m = Nat.repr n) : m = n := by
  have hdata : Nat.toDigits 10 m = Nat.toDigits 10 n := by
    rw [← repr_data, ← repr_data, h]
  have hm := (toDigits_spec m).2.2
  have hn := (toDigits_spec n).2.2
  rw [← hm, ← hn, hdata]

theorem repr_no_underscore (n : Nat) : '_' ∉ (Nat.repr n).data := by
  rw [repr_data]
  intro hmem
  have := (toDigits_spec n).2.1 '_' hmem
  exact absurd this (by decide)

/-! ## Unique decomposition of a generated name at its last underscore -/

theorem splitAtFirstUnd :
    ∀ (u1 : List Char) {v1 u2 v2 : List Char}, '_' ∉ u1 → '_' ∉ u2 →
      u1 ++ '_' :: v1 = u2 ++ '_' :: v2 → u1 = u2 ∧ v1 = v2 := by
  intro u1
  induction u1 with
  | nil =>
    intro v1 u2 v2 _ h2 h
    cases u2 with
    | nil => simpa using h
    | cons c u2' =>
      simp only [List.nil_append, List.cons_append, List.cons.injEq] at h
      obtain ⟨hc, -⟩ := h
      subst hc
      exact absurd (List.mem_cons_self '_' u2') h2
  | cons c u1' ih =>
    intro v1 u2 v2 h1 h2 h
    cases u2 with
    | nil =>
      simp only [List.cons_append, List.nil_append, List.cons.injEq] at h
      obtain ⟨hc, -⟩ := h
      subst hc
      exact absurd (List.mem_cons_self '_' u1') h1
    | cons c2 u2' =>
      simp only [List.cons_append, List.cons.injEq] at h
      obtain ⟨rfl, htl⟩ := h
      obtain ⟨hu, hv⟩ := ih (fun hm => h1 (List.mem_cons_of_mem _ hm))
        (fun hm => h2 (List.mem_cons_of_mem _ hm)) htl
      exact ⟨by rw [hu], hv⟩

theorem splitAtLastUnd {a1 b1 a2 b2 : List Char} (h1 : '_' ∉ b1) (h2 : '_' ∉ b2)
    (h : a1 ++ '_' :: b1 = a2 ++ '_' :: b2) : a1 = a2 ∧ b1 = b2 := by
  have hrev : b1.reverse ++ '_' :: a1.reverse = b2.reverse ++ '_' :: a2.reverse := by
    have := congrArg List.reverse h
    simpa [List.reverse_append, List.reverse_cons, List.append_assoc] using this
  obtain ⟨hb, ha⟩ := splitAtFirstUnd b1.reverse
    (fun hm => h1 (List.mem_reverse.mp hm)) (fun hm => h2 (List.mem_reverse.mp hm)) hrev
  exact ⟨List.reverse_injective ha, List.reverse_injective hb⟩

theorem name_suffix_inj {d1 d2 : String} {k1 k2 : Nat}
    (h : d1 ++ "_" ++ Nat.repr k1 = d2 ++ "_" ++ Nat.repr k2) : d1 = d2 ∧ k1 = k2 := by
  have hd : d1.data ++ '_' :: (Nat.repr k1).data = d2.data ++ '_' :: (Nat.repr k2).data := by
    have := congrArg String.data h
    simpa [String.data_append, List.append_assoc] using this
  obtain ⟨ha, hb⟩ := splitAtLastUnd (repr_no_underscore k1) (repr_no_underscore k2) hd
  exact ⟨String.ext ha, repr_inj (String.ext hb)⟩

/-! ## Positional counting lemmas -/

theorem take_count_succ_le {l : List String} {j : Nat} {a : String} (hj : j < l.length)
    (ha : l[j] = a) : (l.take j).count a + 1 ≤ l.count a := by
  have key : ((l.take j) ++ (l.drop j)).count a = l.count a := by
    rw [List.take_append_drop]
  rw [← key, List.count_append, List.drop_eq_getElem_cons hj, ha, List.count_cons_self]
  omega

theorem count_two_of_two_idx {l : List String} {i j : Nat} {a : String} (hi : i < l.length)
    (hj : j < l.length) (hij : i < j) (hai : l[i] = a) (haj : l[j] = a) :
    2 ≤ l.count a := by
  have hmem : a ∈ l.take j := by
    have hlen : i < (l.take j).length := by
      rw [List.length_take]
      omega
    have hgt : (l.take j)[i] = a := by
      rw [List.getElem_take]
      exact hai
    exact hgt ▸ List.getElem_mem hlen
  have h1 : 1 ≤ (l.take j).count a := List.count_pos_iff.mpr hmem
  have key : ((l.take j) ++ (l.drop j)).count a = l.count a := by
    rw [List.take_append_drop]
  rw [← key, List.count_append, List.drop_eq_getElem_cons hj, haj, List.count_cons_self]
  omega

theorem take_count_strict_mono {l : List String} {i j : Nat} {a : String} (hi : i < l.length)
    (hij : i < j) (hai : l[i] = a) :
    (l.take i).count a < (l.take j).count a := by
  have hsplit : l.take j = l.take i ++ (l.drop i).take (j - i) := by
    rw [← List.take_add]
    congr 1
    omega
  obtain ⟨m, hm⟩ : ∃ m, j - i = m + 1 := ⟨j - i - 1, by omega⟩
  rw [hsplit, List.count_append, hm, List.drop_eq_getElem_cons hi, hai, List.take_succ_cons,
    List.count_cons_self]
  omega

/-! ## The deduplicator loop, characterized positionally -/

theorem dedupLoop_length (ctr : String → Option Nat) (l : List String) :
    (dedupLoop ctr l).length = l.length := by
  induction l generalizing ctr with
  | nil => rfl
  | cons n rest ih =>
    simp only [dedupLoop]
    cases hctr : ctr n with
    | none => simp [ih]
    | some c => simp [ih]

theorem dedup_length (spans : List String) :
    (deduplicate_span_names_in_place spans).length = spans.length :=
  dedupLoop_length _ _

theorem dedupLoop_get? :
    ∀ (l : List String) (ctr : String → Option Nat) (i : Nat) (hi : i < l.length),
      (dedupLoop ctr l)[i]? =
        some (match ctr (l[i]) with
          | none => l[i]
          | some c => l[i] ++ "_" ++ Nat.repr (c + (l.take i).count (l[i]))) := by
  intro l
  induction l with
  | nil => intro ctr i hi; simp at hi
  | cons n rest ih =>
    intro ctr i hi
    cases hctr : ctr n with
    | some c =>
      have hstep : dedupLoop ctr (n :: rest) =
          (n ++ "_" ++ Nat.repr c) ::
            dedupLoop (fun m => if m = n then some (c + 1) else ctr m) rest := by
        simp only [dedupLoop]
        rw [hctr]
      rw [hstep]
      cases i with
      | zero =>
        simp only [List.getElem?_cons_zero, List.getElem_cons_zero, hctr, List.take_zero,
          List.count_nil, Nat.add_zero]
      | succ i =>
        rw [List.getElem?_cons_succ]
        have hi' : i < rest.length := by simpa using hi
        rw [ih (fun m => if m = n then some (c + 1) else ctr m) i hi']
        simp only [List.getElem_cons_succ, List.take_succ_cons]
        by_cases hr : rest[i] = n
        · rw [if_pos hr, hr, hctr, List.count_cons_self]
          show some (n ++ "_" ++ Nat.repr (c + 1 + (rest.take i).count n)) =
            some (n ++ "_" ++ Nat.repr (c + ((rest.take i).count n + 1)))
          have harith : c + 1 + (rest.take i).count n = c + ((rest.take i).count n + 1) := by
            omega
          rw [harith]
        · rw [if_neg hr, List.count_cons_of_ne hr]
    | none =>
      have hstep : dedupLoop ctr (n :: rest) = n :: dedupLoop ctr rest := by
        simp only [dedupLoop]
        rw [hctr]
      rw [hstep]
      cases i with
      | zero =>
        simp only [List.getElem?_cons_zero, List.getElem_cons_zero, hctr]
      | succ i =>
        rw [List.getElem?_cons_succ]
        have hi' : i < rest.length := by simpa using hi
        rw [ih ctr i hi']
        simp only [List.getElem_cons_succ, List.take_succ_cons]
        by_cases hr : rest[i] = n
        · rw [hr, hctr]
        · cases hctr2 : ctr (rest[i]) with
          | none => rfl
          | some c2 => rw [List.count_cons_of_ne hr]

theorem dedup_get? (spans : List String) (i : Nat) (hi : i < spans.length) :
    (deduplicate_span_names_in_place spans)[i]? = some (dedupName spans i hi) := by
  rw [deduplicate_span_names_in_place, dedupLoop_get? spans _ i hi, dedupName]
  by_cases h2 : 2 ≤ spans.count (spans[i])
  · simp only [if_pos h2]
    have harith : 1 + (spans.take i).count (spans[i]) =
        (spans.take i).count (spans[i]) + 1 := by omega
    rw [harith]
  · simp only [if_neg h2]

theorem dedupName_ne_of_lt (spans : List String) (H : noCollision spans)
    {i j : Nat} (hi : i < spans.length) (hj : j < spans.length) (hij : i < j) :
    dedupName spans i hi ≠ dedupName spans j hj := by
  intro heq
  unfold dedupName at heq
  by_cases ha2 : 2 ≤ spans.count (spans[i]) <;>
    by_cases hb2 : 2 ≤ spans.count (spans[j])
  · rw [if_pos ha2, if_pos hb2] at heq
    obtain ⟨hab, hk⟩ := name_suffix_inj heq
    have hmono := take_count_strict_mono hi hij rfl
    rw [hab] at hmono hk
    omega
  · rw [if_pos ha2, if_neg hb2] at heq
    have hb1 : spans.count (spans[j]) = 1 := by
      have := List.count_pos_iff.mpr (List.getElem_mem hj)
      omega
    have hci := take_count_succ_le hi (rfl : spans[i] = spans[i])
    exact H j hj i hi hb1 ha2 ((spans.take i).count (spans[i])) (by omega) heq.symm
  · rw [if_neg ha2, if_pos hb2] at heq
    have ha1 : spans.count (spans[i]) = 1 := by
      have := List.count_pos_iff.mpr (List.getElem_mem hi)
      omega
    have hcj := take_count_succ_le hj (rfl : spans[j] = spans[j])
    exact H i hi j hj ha1 hb2 ((spans.take j).count (spans[j])) (by omega) heq
  · rw [if_neg ha2, if_neg hb2] at heq
    exact absurd (count_two_of_two_idx hi hj hij rfl heq.symm) ha2

theorem dedup_nodup (spans : List String) (H : noCollision spans) :
    (deduplicate_span_names_in_place spans).Nodup := by
  rw [List.nodup_iff_injective_get]
  intro u v huv
  obtain ⟨i, hi'⟩ := u
  obtain ⟨j, hj'⟩ := v
  have hi : i < spans.length := by rw [← dedup_length spans]; exact hi'
  have hj : j < spans.length := by rw [← dedup_length spans]; exact hj'
  have hval : ∀ (k : Nat) (hk : k < spans.length)
      (hk' : k < (deduplicate_span_names_in_place spans).length),
      (deduplicate_span_names_in_place spans).get ⟨k, hk'⟩ = dedupName spans k hk := by
    intro k hk hk'
    have h1 := dedup_get? spans k hk
    rw [List.getElem?_eq_getElem hk'] at h1
    simpa [List.get_eq_getElem] using Option.some.inj h1
  rw [hval i hi hi', hval j hj hj'] at huv
  rcases Nat.lt_trichotomy i j with hlt | heqij | hgt
  · exact absurd huv (dedupName_ne_of_lt spans H hi hj hlt)
  · exact Fin.ext heqij
  · exact absurd huv.symm (dedupName_ne_of_lt spans H hj hi hgt)

/-! ## Claim C1: uniqueness after deduplication (amended) -/

/-- C1 (amended): after `deduplicate_span_names_in_place` runs, every span
whose original name occurred exactly once in the batch keeps its original
name unchanged; and, provided no once-occurring original name coincides with
a generated name `d ++ "_" ++ k` of a duplicated name `d` (`noCollision`),
every span in the batch has a unique name.  (The uniqueness part is false
without the proviso, see `C1_dedup_not_unique_counterexample`.) -/
theorem C1_dedup_preserves_singletons_and_unique (spans : List String) :
    (∀ i (hi : i < spans.length), spans.count (spans[i]) = 1 →
      (deduplicate_span_names_in_place spans)[i]? = some (spans[i])) ∧
    (noCollision spans → (deduplicate_span_names_in_place spans).Nodup) := by
  constructor
  · intro i hi h1
    rw [dedup_get?, dedupName, if_neg (by omega)]
  · exact dedup_nodup spans

/-- C1 counterexample: on the batch `["red", "red", "red_1"]` deduplication
produces `["red_1", "red_2", "red_1"]`, in which two spans share the name
`"red_1"` — refuting the claim that every span in the batch ends up with a
unique name. -/
theorem C1_dedup_not_unique_counterexample :
    deduplicate_span_names_in_place ["red", "red", "red_1"] = ["red_1", "red_2", "red_1"] ∧
    ¬ (deduplicate_span_names_in_place ["red", "red", "red_1"]).Nodup := by
  constructor
  · rfl
  · decide

/-- Witness for C1 on the batch `["red", "red", "blue"]`: the singleton
`"blue"` is preserved and the result is duplicate-free. -/
theorem C1_dedup_preserves_singletons_and_unique_witness :
    (deduplicate_span_names_in_place ["red", "red", "blue"])[2]? = some "blue" ∧
    (deduplicate_span_names_in_place ["red", "red", "blue"]).Nodup := by
  constructor
  · exact (C1_dedup_preserves_singletons_and_unique ["red", "red", "blue"]).1 2
      (by decide) (by decide)
  · exact (C1_dedup_preserves_singletons_and_unique ["red", "red", "blue"]).2 (by decide)

/-! ## Claim C4: the renaming scheme -/

/-- C4: for every batch and every name occurring more than once, the k-th
occurrence (in original sequence order, counting from 1 and including the
first occurrence) is renamed to `"{name}_{k}"`; in particular
`["red", "red"]` becomes `["red_1", "red_2"]`, `["red", "red", "blue"]`
becomes `["red_1", "red_2", "blue"]`, a batch with no duplicate names is
unchanged, and the empty batch is a no-op. -/
theorem C4_dedup_occurrence_renaming :
    (∀ (spans : List String) (i : Nat) (hi : i < spans.length),
      2 ≤ spans.count (spans[i]) →
      (deduplicate_span_names_in_place spans)[i]? =
        some (spans[i] ++ "_" ++ Nat.repr ((spans.take i).count (spans[i]) + 1))) ∧
    deduplicate_span_names_in_place ["red", "red"] = ["red_1", "red_2"] ∧
    deduplicate_span_names_in_place ["red", "red", "blue"] = ["red_1", "red_2", "blue"] ∧
    (∀ spans : List String, (∀ n ∈ spans, spans.count n ≤ 1) →
      deduplicate_span_names_in_place spans = spans) ∧
    deduplicate_span_names_in_place [] = [] := by
  refine ⟨?_, rfl, rfl, ?_, rfl⟩
  · intro spans i hi h2
    rw [dedup_get?, dedupName, if_pos h2]
  · intro spans hle
    apply List.ext_getElem?
    intro i
    by_cases hi : i < spans.length
    · rw [dedup_get? spans i hi, dedupName]
      have hmem : spans[i] ∈ spans := List.getElem_mem hi
      have h1 : 1 ≤ spans.count (spans[i]) := List.count_pos_iff.mpr hmem
      have hub : spans.count (spans[i]) ≤ 1 := hle _ hmem
      rw [if_neg (by omega), List.getElem?_eq_getElem hi]
    · have hge : spans.length ≤ i := Nat.le_of_not_lt hi
      rw [List.getElem?_eq_none hge,
        List.getElem?_eq_none (by rw [dedup_length]; exact hge)]

/-- Witness for C4: the first occurrence of the duplicated `"red"` is renamed
to `"red_1"`, and a duplicate-free batch is unchanged. -/
theorem C4_dedup_occurrence_renaming_witness :
    (deduplicate_span_names_in_place ["red", "red"])[0]? = some "red_1" ∧
    deduplicate_span_names_in_place ["a", "b", "c"] = ["a", "b", "c"] := by
  constructor
  · have h := C4_dedup_occurrence_renaming.1 ["red", "red"] 0 (by decide) (by decide)
    rw [h]
    rfl
  · exact C4_dedup_occurrence_renaming.2.2.2.1 ["a", "b", "c"] (by decide)

/-! ## Claim C5: totality of the encoder chain (amended) -/

theorem strFallback_ok {cfg : EncCfg} {obj : PyObj} {s : String}
    (hs : obj.str_form = some s) :
    exceptOk (TraceJSONEncoder.strFallback cfg obj) = true := by
  unfold TraceJSONEncoder.strFallback
  by_cases hsafe : TraceJSONEncoder.is_safe_to_encode_str cfg obj = true
  · simp only [hsafe, Bool.not_true, Bool.false_eq_true, if_false, hs]
    rfl
  · have hsf : TraceJSONEncoder.is_safe_to_encode_str cfg obj = false := by
      simpa using hsafe
    simp only [hsf, Bool.not_false, if_true]
    rfl

theorem default_reaches_fallback (cfg : EncCfg) (obj : PyObj)
    (h1 : (cfg.langchain_legacy && obj.is_langchain_base_model) = false)
    (h2 : (cfg.pydantic_installed && obj.is_pydantic_base_model) = false)
    (h3 : (if obj.is_dataclass then obj.asdict_export else AsdictResult.typeError) =
      AsdictResult.typeError) :
    TraceJSONEncoder.default cfg obj = TraceJSONEncoder.strFallback cfg obj := by
  unfold TraceJSONEncoder.default
  rw [if_neg (by simp [h1]), if_neg (by simp [h2])]
  by_cases hd : obj.is_dataclass = true
  · rw [if_pos hd]
    rw [if_pos hd] at h3
    rw [h3]
  · rw [if_neg hd]

/-- C5 counterexample: a value no rule classifies and whose `str()` itself
raises makes `TraceJSONEncoder.default` raise — the chain is not total for
every input, contrary to the claim that encode never raises. -/
theorem C5_encode_raises_counterexample :
    TraceJSONEncoder.default ⟨false, false, false, false⟩
      ⟨false, false, false, false, none, none, .typeError, none, "T"⟩ =
      .error "str(obj) raised" := rfl

/-- C5 (amended): the fallback chain always terminates with a definite
outcome and raises only when an invoked external conversion itself raises:
whenever the value's own `dict()`/`model_dump()`/`str()` succeed and its
`asdict` raises nothing the narrow `except TypeError` fails to catch, the
encoder returns a value; when no earlier rule classifies the value, rule 5's
generic string conversion is reached and its result returned; and a
non-`TypeError` exception from `asdict` (e.g. `RecursionError` on a cyclic
dataclass) propagates out of the encoder. -/
theorem C5_encode_total_amended (cfg : EncCfg) (obj : PyObj) :
    (obj.dict_export.isSome = true → obj.model_dump.isSome = true →
      (∀ e, obj.asdict_export ≠ .raised e) → obj.str_form.isSome = true →
      exceptOk (TraceJSONEncoder.default cfg obj) = true) ∧
    (∀ s, (cfg.langchain_legacy && obj.is_langchain_base_model) = false →
      (cfg.pydantic_installed && obj.is_pydantic_base_model) = false →
      (if obj.is_dataclass then obj.asdict_export else AsdictResult.typeError) =
        AsdictResult.typeError →
      TraceJSONEncoder.is_safe_to_encode_str cfg obj = true →
      obj.str_form = some s →
      TraceJSONEncoder.default cfg obj = .ok (.str s)) ∧
    (∀ e, (cfg.langchain_legacy && obj.is_langchain_base_model) = false →
      (cfg.pydantic_installed && obj.is_pydantic_base_model) = false →
      obj.is_dataclass = true → obj.asdict_export = .raised e →
      TraceJSONEncoder.default cfg obj = .error e) := by
  refine ⟨?_, ?_, ?_⟩
  · intro hd hm hnr hs
    obtain ⟨d, hd⟩ := Option.isSome_iff_exists.mp hd
    obtain ⟨m, hm⟩ := Option.isSome_iff_exists.mp hm
    obtain ⟨s, hs⟩ := Option.isSome_iff_exists.mp hs
    unfold TraceJSONEncoder.default
    by_cases h1 : (cfg.langchain_legacy && obj.is_langchain_base_model) = true
    · rw [if_pos h1, hd]
      rfl
    · rw [if_neg h1]
      by_cases h2 : (cfg.pydantic_installed && obj.is_pydantic_base_model) = true
      · rw [if_pos h2]
        by_cases hv : cfg.pydantic_v2 = true
        · rw [if_pos hv, hm]
          rfl
        · rw [if_neg hv, hd]
          rfl
      · rw [if_neg h2]
        by_cases hdc : obj.is_dataclass = true
        · rw [if_pos hdc]
          cases ha : obj.asdict_export with
          | ok d2 => rfl
          | typeError => exact strFallback_ok hs
          | raised e => exact absurd ha (hnr e)
        · rw [if_neg hdc]
          exact strFallback_ok hs
  · intro s h1 h2 h3 hsafe hs
    rw [default_reaches_fallback cfg obj h1 h2 h3]
    unfold TraceJSONEncoder.strFallback
    simp only [hsafe, Bool.not_true, Bool.false_eq_true, if_false, hs]
  · intro e h1 h2 hdc ha
    unfold TraceJSONEncoder.default
    rw [if_neg (by simp [h1]), if_neg (by simp [h2]), if_pos hdc, ha]

/-- Witness for C5: a value with succeeding conversions that no rule
classifies is encoded, via the string fallback, without raising; and a
dataclass whose `asdict` raises a `RecursionError` makes the encoder raise
it. -/
theorem C5_encode_total_amended_witness :
    exceptOk (TraceJSONEncoder.default ⟨false, false, false, false⟩
      ⟨false, false, false, false, some [], some [], .typeError, some "v", "T"⟩) = true ∧
    TraceJSONEncoder.default ⟨false, false, false, false⟩
      ⟨false, false, false, false, some [], some [], .typeError, some "v", "T"⟩ =
      .ok (.str "v") ∧
    TraceJSONEncoder.default ⟨false, false, false, false⟩
      ⟨false, false, true, false, some [], some [], .raised "RecursionError", some "v", "T"⟩ =
      .error "RecursionError" :=
  ⟨(C5_encode_total_amended ⟨false, false, false, false⟩
      ⟨false, false, false, false, some [], some [], .typeError, some "v", "T"⟩).1
      rfl rfl (fun _ h => AsdictResult.noConfusion h) rfl,
   (C5_encode_total_amended ⟨false, false, false, false⟩
      ⟨false, false, false, false, some [], some [], .typeError, some "v", "T"⟩).2.1 "v"
      rfl rfl rfl rfl rfl,
   (C5_encode_total_amended ⟨false, false, false, false⟩
      ⟨false, false, true, false, some [], some [], .raised "RecursionError", some "v", "T"⟩).2.2
      "RecursionError" rfl rfl rfl rfl⟩

/-! ## Claim C6: the unsafe-string-conversion safety gate (amended) -/

/-- C6 counterexample: an unsafe-to-stringify llama-index streaming value
that is also a dataclass whose `asdict` succeeds is serialized by the
dataclass rule as a field dict — not as its type name — even though the
llama-index library is present.  (The source's own comments name
`StreamingAgentChatResponse`, one of the unsafe types, as a dataclass.) -/
theorem C6_unsafe_type_counterexample :
    TraceJSONEncoder.default ⟨false, false, false, true⟩
      ⟨false, false, true, true, none, none, .ok [], none, "StreamingResponse"⟩ =
      .ok (.dict []) ∧
    PyVal.dict ([] : List (String × String)) ≠ .typeObj "StreamingResponse" :=
  ⟨rfl, fun h => PyVal.noConfusion h⟩

/-- C6 (amended): when the llama-index streaming types are importable and the
value is an instance of one, the encoder never invokes the value's string
conversion (the result does not depend on `str_form`), and whenever no
earlier rule — langchain-legacy, pydantic, dataclass — classifies the value,
it serializes the type name of the value.  When the library is absent the
safety check is skipped and, if no earlier rule classifies the value, the
chain proceeds to the string fallback. -/
theorem C6_unsafe_type_gate (cfg : EncCfg) (obj : PyObj) :
    (cfg.llama_index_installed = true → obj.is_llama_streaming = true →
      (∀ s1 s2 : Option String,
        TraceJSONEncoder.default cfg { obj with str_form := s1 } =
          TraceJSONEncoder.default cfg { obj with str_form := s2 }) ∧
      ((cfg.langchain_legacy && obj.is_langchain_base_model) = false →
        (cfg.pydantic_installed && obj.is_pydantic_base_model) = false →
        (if obj.is_dataclass then obj.asdict_export else AsdictResult.typeError) =
          AsdictResult.typeError →
        TraceJSONEncoder.default cfg obj = .ok (.typeObj obj.type_name))) ∧
    (cfg.llama_index_installed = false →
      TraceJSONEncoder.is_safe_to_encode_str cfg obj = true ∧
      (∀ s, (cfg.langchain_legacy && obj.is_langchain_base_model) = false →
        (cfg.pydantic_installed && obj.is_pydantic_base_model) = false →
        (if obj.is_dataclass then obj.asdict_export else AsdictResult.typeError) =
          AsdictResult.typeError →
        obj.str_form = some s →
        TraceJSONEncoder.default cfg obj = .ok (.str s))) := by
  obtain ⟨l, p, v, li⟩ := cfg
  obtain ⟨b1, b2, b3, b4, de, md, ae, sf, tn⟩ := obj
  constructor
  · intro hl hs
    subst hl
    subst hs
    constructor
    · intro s1 s2
      simp [TraceJSONEncoder.default, TraceJSONEncoder.strFallback,
        TraceJSONEncoder.is_safe_to_encode_str]
    · intro h1 h2 h3
      simp only at h1 h2 h3
      rw [default_reaches_fallback _ _ h1 h2 h3]
      simp [TraceJSONEncoder.strFallback, TraceJSONEncoder.is_safe_to_encode_str]
  · intro hli
    subst hli
    refine ⟨rfl, ?_⟩
    intro s h1 h2 h3 hsf
    simp only at h1 h2 h3 hsf
    rw [default_reaches_fallback _ _ h1 h2 h3]
    simp [TraceJSONEncoder.strFallback, TraceJSONEncoder.is_safe_to_encode_str, hsf]

/-- Witness for C6: with llama-index present, an unclassified streaming value
is encoded as its type name, and the result is the same whether or not its
`str()` would raise. -/
theorem C6_unsafe_type_gate_witness :
    TraceJSONEncoder.default ⟨false, false, false, true⟩
      ⟨false, false, false, true, none, none, .typeError, none, "StreamingResponse"⟩ =
      .ok (.typeObj "StreamingResponse") ∧
    TraceJSONEncoder.default ⟨false, false, false, true⟩
      ⟨false, false, false, true, none, none, .typeError, none, "StreamingResponse"⟩ =
      TraceJSONEncoder.default ⟨false, false, false, true⟩
        ⟨false, false, false, true, none, none, .typeError, some "boom",
          "StreamingResponse"⟩ := by
  have h := C6_unsafe_type_gate ⟨false, false, false, true⟩
    ⟨false, false, false, true, none, none, .typeError, none, "StreamingResponse"⟩
  exact ⟨(h.1 rfl rfl).2 rfl rfl rfl, (h.1 rfl rfl).1 none (some "boom")⟩

/-! ## Claim C7: soft failure of the attribute accessor -/

/-- C7: `get_otel_attribute` returns absence (Python `None`, i.e.
`PyJson.null`) rather than raising, both when the key is missing from the
span's attribute map and when the stored value is not syntactically valid
JSON; the catch-all `except` turns every decode failure into absence. -/
theorem C7_get_attribute_soft_failure (attributes : String → Option String) (key : String) :
    (attributes key = none → get_otel_attribute attributes key = .null) ∧
    (∀ s, attributes key = some s → json_loads s = .error () →
      get_otel_attribute attributes key = .null) := by
  constructor
  · intro h
    rw [get_otel_attribute, h]
  · intro s hs herr
    rw [get_otel_attribute, hs]
    simp only [herr]

/-- Witness for C7: a missing key and a malformed stored value (`"\x7b"`)
both yield absence. -/
theorem C7_get_attribute_soft_failure_witness :
    get_otel_attribute (fun _ => none) "k" = .null ∧
    get_otel_attribute (fun _ => some "\x7b") "k" = .null :=
  ⟨(C7_get_attribute_soft_failure (fun _ => none) "k").1 rfl,
   (C7_get_attribute_soft_failure (fun _ => some "\x7b") "k").2 "\x7b" rfl rfl⟩

/-! ## Claim C10: JSON null is indistinguishable from absence -/

/-- C10: when the stored attribute value is the JSON literal `"null"`,
`get_otel_attribute` returns Python `None`, so at the public interface a
stored JSON null is indistinguishable from a missing key and from a
malformed value. -/
theorem C10_null_indistinguishable (a1 a2 a3 : String → Option String) (key : String) :
    a1 key = some "null" →
    get_otel_attribute a1 key = .null ∧
    (a2 key = none → get_otel_attribute a1 key = get_otel_attribute a2 key) ∧
    (∀ v, a3 key = some v → json_loads v = .error () →
      get_otel_attribute a1 key = get_otel_attribute a3 key) := by
  intro h1
  have hbase : get_otel_attribute a1 key = .null := by
    rw [get_otel_attribute, h1]
    rfl
  refine ⟨hbase, ?_, ?_⟩
  · intro h2
    rw [hbase, get_otel_attribute, h2]
  · intro v h3 herr
    rw [hbase, get_otel_attribute, h3]
    simp only [herr]

/-- Witness for C10: a stored `"null"` yields `None`, equal to the result
for a missing key. -/
theorem C10_null_indistinguishable_witness :
    get_otel_attribute (fun _ => some "null") "k" = .null ∧
    get_otel_attribute (fun _ => some "null") "k" =
      get_otel_attribute (fun _ => none) "k" := by
  have h := C10_null_indistinguishable (fun _ => some "null") (fun _ => none)
    (fun _ => none) "k" rfl
  exact ⟨h.1, h.2.1 rfl⟩

/-! ## Claim C8: decoding failures (amended) -/

/-- C8 counterexample: `decode_id` implements Python `int(s, 16)`, which
tolerates single underscores between digits: `"1_2"` is not a valid
hexadecimal string, yet decoding succeeds (with the value 0x12 = 18) instead
of failing with a ParseError. -/
theorem C8_decode_tolerant_counterexample :
    decode_id "1_2" = some 18 ∧ isValidHexString "1_2" = false := ⟨rfl, rfl⟩

/-- C8 (amended): decoding succeeds with the integer value on every valid
hexadecimal string, with or without a `0x`/`0X` prefix; it does not fail on
every non-hexadecimal string — `decode_id`, implementing Python
`int(s, 16)`, also tolerates surrounding whitespace, a sign, single
underscores between digits and (beyond this model's ASCII scope) Unicode
digit and whitespace forms — though representative malformed inputs such as
the empty string, a bare `"0x"`, and `"zz"` do fail with a ParseError. -/
theorem C8_decode_parse_errors (s : String) :
    (isValidHexString s = true → decode_id s = some ((hexStrVal s : Nat) : Int)) ∧
    decode_id "" = none ∧ decode_id "0x" = none ∧ decode_id "zz" = none ∧
    decode_id " ff " = some 255 :=
  ⟨fun h => decode_id_of_valid h, rfl, rfl, rfl, rfl⟩

/-- Witness for C8: the valid hex string `"ff"` decodes to its value. -/
theorem C8_decode_parse_errors_witness :
    decode_id "ff" = some ((hexStrVal "ff" : Nat) : Int) ∧ decode_id "" = none :=
  ⟨(C8_decode_parse_errors "ff").1 rfl, (C8_decode_parse_errors "ff").2.1⟩

/-! ## Claim C9: the evaluate-mode request-id error (amended) -/

/-- C9 counterexample: with a present evaluate-mode context whose
`request_id` is the empty string — present, not absent — the accessor still
raises, refuting the claim's "otherwise it returns the requestId or absence
without error". -/
theorem C9_request_id_counterexample :
    exceptOk (maybe_get_request_id (some ⟨some "", true⟩) true) = false ∧
    (⟨some "", true⟩ : PredictionContext).request_id ≠ none :=
  ⟨rfl, fun h => Option.noConfusion h⟩

/-- C9 (amended): `maybe_get_request_id` raises an InvalidArgument-class
error exactly when a prediction context is present, the call is made in
evaluate mode, the context itself is in evaluate mode, and the context's
`request_id` is absent or empty (Python-falsy); in every other case it
returns the context's `request_id`, or absence, without error. -/
theorem C9_request_id_error_condition (context : Option PredictionContext)
    (is_evaluate : Bool) :
    (exceptOk (maybe_get_request_id context is_evaluate) = false ↔
      ∃ c, context = some c ∧ is_evaluate = true ∧ c.is_evaluate = true ∧
        requestIdFalsy c.request_id = true) ∧
    (exceptOk (maybe_get_request_id context is_evaluate) = true →
      maybe_get_request_id context is_evaluate = .ok none ∨
      ∃ c, context = some c ∧
        maybe_get_request_id context is_evaluate = .ok c.request_id) := by
  cases context with
  | none => simp [maybe_get_request_id, exceptOk]
  | some c =>
    cases he : is_evaluate <;> cases hc : c.is_evaluate <;>
      cases hf : requestIdFalsy c.request_id <;>
      simp [maybe_get_request_id, exceptOk, hc, hf]

/-- Witness for C9 at a concrete input: a present evaluate-mode context with
an absent `request_id` makes the accessor raise. -/
theorem C9_request_id_error_condition_witness :
    exceptOk (maybe_get_request_id (some ⟨none, true⟩) true) = false :=
  (C9_request_id_error_condition (some ⟨none, true⟩) true).1.mpr
    ⟨⟨none, true⟩, rfl, rfl, rfl, rfl⟩

end Mlflow
